import Mathlib

/-!
Shallow embedding of the QUIC header-parsing subsystem of the `quicker`
repository: the `HeaderParser` class (coalesced-datagram splitting, long-header
and short-header parsing) together with the wire value types and the VLIE
variable-length integer codec it depends on.

Buffers are modelled as `List Nat` of byte values; Node `Buffer` primitives
(`readUInt8`, `bslice`, `copy` into a zero-filled allocation) are embedded
explicitly.  Bit masks and shifts on bytes are written with `/` and `%` by
powers of two, which agree with the JavaScript bitwise operators on the byte
values involved.  Fallible operations return `Except Err _`.

The `VLIE` codec, the wire value types (`ConnectionID`, `Version`,
`PacketNumber`), the `LongHeader`/`ShortHeader` classes and the
`VersionValidation` collaborator are not part of the source tree that contains
`HeaderParser`; they are modelled from the specification, and each such
definition is marked `Modelled from the spec:` in its doc comment.
-/

/-- Typed failure kinds.  `RangeError` models the Node `Buffer.readUInt8`
out-of-bounds exception; the remaining constructors are the typed error kinds
of the specification (`InvalidPacketNumberWidth` models the
`Error("Not a valid packet type")` thrown by `getShortHeaderPacketNumber`). -/
inductive Err where
  | RangeError
  | TruncatedInput
  | InvalidFieldLength
  | ValueTooLarge
  | InvalidPacketNumberWidth
  deriving DecidableEq

/-- Node `Buffer.readUInt8` / `readUIntBE(offset, 1)`: the byte at `off`,
an exception (modelled as `RangeError`) when `off` is out of bounds. -/
def readUInt8 (buf : List Nat) (off : Nat) : Except Err Nat :=
  if off < buf.length then .ok (buf.getD off 0) else .error .RangeError

/-- Node `Buffer.slice(a, b)`: the bytes in `[a, b)`, both ends clamped to the
buffer length, empty when `a ≥ b`. -/
def bslice (buf : List Nat) (a b : Nat) : List Nat :=
  (buf.take b).drop a

/-- Models `Buffer.alloc(len)` (zero-filled) followed by
`buf.copy(dest, 0, start, start + len)`: the bytes in `[start, start+len)`
clamped at the source end, zero-padded back up to `len`. -/
def bufCopy (buf : List Nat) (start len : Nat) : List Nat :=
  bslice buf start (start + len) ++ List.replicate (len - (bslice buf start (start + len)).length) 0

/-- A connection ID as constructed by the parser: the byte content handed to
the `ConnectionID` constructor together with the length argument. -/
structure ConnectionID where
  bytes : List Nat
  length : Nat
  deriving DecidableEq

/-- Modelled from the spec: the `ConnectionID` wire value type is not under
the given sources.  Section 4.2: each wire value type validates only its own
invariants — for `ConnectionID` the length class `{0} ∪ [4,18]` — and fails
with `InvalidFieldLength` otherwise. -/
def mkConnectionID (bytes : List Nat) (len : Nat) : Except Err ConnectionID :=
  if len = 0 ∨ (4 ≤ len ∧ len ≤ 18) then .ok ⟨bytes, len⟩ else .error .InvalidFieldLength

/-- Modelled from the spec: the `Version` wire value type is not under the
given sources.  Sections 3 and 4.2: a version is exactly 4 bytes, and the type
fails with `InvalidFieldLength` otherwise. -/
def mkVersion (bytes : List Nat) : Except Err (List Nat) :=
  if bytes.length = 4 then .ok bytes else .error .InvalidFieldLength

/-- Modelled from the spec: `VersionValidation.IsVersionNegotationFlag` is not
under the given sources.  Section 3: the version-negotiation indicator is the
all-zero wire pattern of the 4-byte version field. -/
def isVersionNegotiationFlag (version : List Nat) : Bool :=
  version.all (fun b => b == 0)

/-- Result of a VLIE decode: the numeric value and the offset just past the
encoding (`VLIEOffset` in the source's callers). -/
structure VLIEOffset where
  value : Nat
  offset : Nat
  deriving DecidableEq

namespace VLIE

/-- Modelled from the spec: the VLIE codec source is not under the given
sources (only its callers are).  Section 4.1 `decode`: the top 2 bits of the
first byte select the encoded length `L ∈ {1,2,4,8}` (`2 ^ (b0 / 64)`); reads
`L` bytes total, big-endian, with those two bits masked off (`b0 % 64`); fails
with `TruncatedInput` when fewer than `L` bytes remain (in particular when even
the first byte is missing). -/
def decode (buf : List Nat) (offset : Nat) : Except Err VLIEOffset :=
  if buf.length < offset + 1 then .error .TruncatedInput
  else
    let b0 := buf.getD offset 0
    let len := 2 ^ (b0 / 64)
    if buf.length < offset + len then .error .TruncatedInput
    else .ok ⟨(bslice buf (offset + 1) (offset + len)).foldl (fun a b => a * 256 + b) (b0 % 64), offset + len⟩

/-- Modelled from the spec: the VLIE codec source is not under the given
sources.  Section 4.1 `encode`: choose the smallest of the 1/2/4/8-byte forms
(6/14/30/62 usable bits), write the length selector into the top 2 bits of the
first byte, big-endian; fail with `ValueTooLarge` beyond the 62-bit range. -/
def encode (v : Nat) : Except Err (List Nat) :=
  if v < 2 ^ 6 then .ok [v]
  else if v < 2 ^ 14 then .ok [64 + v / 2 ^ 8, v % 2 ^ 8]
  else if v < 2 ^ 30 then .ok [128 + v / 2 ^ 24, v / 2 ^ 16 % 2 ^ 8, v / 2 ^ 8 % 2 ^ 8, v % 2 ^ 8]
  else if v < 2 ^ 62 then
    .ok [192 + v / 2 ^ 56, v / 2 ^ 48 % 2 ^ 8, v / 2 ^ 40 % 2 ^ 8, v / 2 ^ 32 % 2 ^ 8,
         v / 2 ^ 24 % 2 ^ 8, v / 2 ^ 16 % 2 ^ 8, v / 2 ^ 8 % 2 ^ 8, v % 2 ^ 8]
  else .error .ValueTooLarge

end VLIE

/-- The minimal VLIE form length for a representable value: 1, 2, 4 or 8 bytes
for the 6/14/30/62-bit ranges. -/
def vlieMinLen (v : Nat) : Nat :=
  if v < 2 ^ 6 then 1 else if v < 2 ^ 14 then 2 else if v < 2 ^ 30 then 4 else 8

/-- Encode-then-decode composition used to state the round-trip law. -/
def decodeEncoded (v : Nat) : Except Err VLIEOffset :=
  (VLIE.encode v).bind (fun bytes => VLIE.decode bytes 0)

/-- Tagged header union.  The `LongHeader`/`ShortHeader` classes are not under
the given sources; the field sets are taken from the constructor calls in
`HeaderParser` and the spec's section 3 data model.  `parsedBuffer` holds the
raw header span installed via `setParsedBuffer`; packet numbers are the raw
byte bslices handed to the `PacketNumber` constructor (which, per section 4.2,
performs no length validation of its own). -/
inductive Header where
  | long (type : Nat) (destConnectionID srcConnectionID : ConnectionID)
      (packetNumber : Option (List Nat)) (payloadLength : Option Nat)
      (version : List Nat) (parsedBuffer : List Nat)
  | short (type : Nat) (destConnectionID : ConnectionID) (packetNumber : List Nat)
      (keyPhaseBit spinBit : Bool) (parsedBuffer : List Nat)
  deriving DecidableEq

/-- `LongHeader.getPayloadLength`, combined with the header-type test of the
loop condition: a short header (which has no payload-length field) yields
`none`, exactly as the conjunction
`getHeaderType() === LongHeader && getPayloadLength() !== undefined` does. -/
def Header.getPayloadLength : Header → Option Nat
  | .long _ _ _ _ payloadLength _ _ => payloadLength
  | .short _ _ _ _ _ _ => none

/-- Packet-number field of either variant (absent only on a
version-negotiation long header). -/
def Header.getPacketNumber : Header → Option (List Nat)
  | .long _ _ _ packetNumber _ _ _ => packetNumber
  | .short _ _ packetNumber _ _ _ => some packetNumber

/-- Raw header span stored by `setParsedBuffer`. -/
def Header.getParsedBuffer : Header → List Nat
  | .long _ _ _ _ _ _ parsedBuffer => parsedBuffer
  | .short _ _ _ _ _ parsedBuffer => parsedBuffer

/-- Destination connection ID of either variant. -/
def Header.getDestConnectionID : Header → ConnectionID
  | .long _ d _ _ _ _ _ => d
  | .short _ d _ _ _ _ => d

/-- Source connection ID (long headers only). -/
def Header.getSrcConnectionID : Header → Option ConnectionID
  | .long _ _ s _ _ _ _ => some s
  | .short _ _ _ _ _ _ => none

/-- `getHeaderType() === HeaderType.ShortHeader`. -/
def Header.isShortHeader : Header → Bool
  | .long _ _ _ _ _ _ _ => false
  | .short _ _ _ _ _ _ => true

/-- The `HeaderOffset` interface: a parsed header paired with the absolute
buffer offset of the first payload byte. -/
structure HeaderOffset where
  header : Header
  offset : Nat
  deriving DecidableEq

/-- Connection-ID length-class decode of `parseLongHeader` (lines 107-110):
a nibble of `0` gives length 0, any other nibble `n` gives `n + 3`. -/
def nibbleLength (n : Nat) : Nat :=
  if n = 0 then 0 else n + 3

namespace HeaderParser

/-- `HeaderParser.getShortHeaderPacketNumber` (lines 225-236).  The
`ShortHeaderType` enumeration is not under the given sources; its values are
modelled from the spec's section 8 (`One/Two/Four-Octet` enumerated as
selector values 0/1/2, reading 1/2/4 bytes), which also matches the
`1 << type` offset advance in `parseShortHeader`.  The `default` branch throws
(`InvalidPacketNumberWidth`). -/
def getShortHeaderPacketNumber (type : Nat) (buffer : List Nat) (offset : Nat) : Except Err (List Nat) :=
  match type with
  | 0 => .ok (bslice buffer offset (offset + 1))
  | 1 => .ok (bslice buffer offset (offset + 2))
  | 2 => .ok (bslice buffer offset (offset + 4))
  | _ => .error .InvalidPacketNumberWidth

/-- `HeaderParser.parseShortHeader` (lines 163-206).  Note the source reads the
explicit connection-ID length byte at `offset` without skipping it: the length
byte is itself part of the `destLen` bytes the connection ID occupies (the
local quicker convention stores the length up-front inside the ID bytes).
`type0 / 64 % 2 = 1` is `(type & 0x40) === 0x40`, `type0 / 4 % 2 = 1` is
`(type & 0x04) === 0x04`, `type0 % 4` is `correctShortHeaderType`'s
`type & 0x3`, and `2 ^ (type0 % 4)` is `1 << type`. -/
def parseShortHeader (buf : List Nat) (offset : Nat) : Except Err HeaderOffset :=
  match readUInt8 buf offset with
  | .error e => .error e
  | .ok type0 =>
    let keyPhaseBit : Bool := type0 / 64 % 2 = 1
    let spinBit : Bool := type0 / 4 % 2 = 1
    let type := type0 % 4
    match readUInt8 buf (offset + 1) with
    | .error e => .error e
    | .ok destLen =>
      match mkConnectionID (bufCopy buf (offset + 1) destLen) destLen with
      | .error e => .error e
      | .ok destConnectionID =>
        match getShortHeaderPacketNumber type buf (offset + 1 + destLen) with
        | .error e => .error e
        | .ok packetNumber =>
          let endOff := offset + 1 + destLen + 2 ^ type
          .ok ⟨Header.short type destConnectionID packetNumber keyPhaseBit spinBit
                 (bslice buf offset endOff), endOff⟩

/-- `HeaderParser.parseLongHeader` (lines 97-143).  `b0 - 128` is the
`- 0x80` type correction (the first byte always has the top bit set on this
path), `conLengths / 16` and `conLengths % 16` are the `>> 4` and `& 0xF`
nibble extractions.  On the version-negotiation sub-path no payload length or
packet number is read. -/
def parseLongHeader (buf : List Nat) (offset : Nat) : Except Err HeaderOffset :=
  match readUInt8 buf offset with
  | .error e => .error e
  | .ok b0 =>
    match mkVersion (bslice buf (offset + 1) (offset + 5)) with
    | .error e => .error e
    | .ok version =>
      match readUInt8 buf (offset + 5) with
      | .error e => .error e
      | .ok conLengths =>
        let destLength := nibbleLength (conLengths / 16)
        let srcLength := nibbleLength (conLengths % 16)
        match mkConnectionID (bslice buf (offset + 6) (offset + 6 + destLength)) destLength with
        | .error e => .error e
        | .ok destConnectionID =>
          match mkConnectionID (bslice buf (offset + 6 + destLength) (offset + 6 + destLength + srcLength)) srcLength with
          | .error e => .error e
          | .ok srcConnectionID =>
            let afterCIDs := offset + 6 + destLength + srcLength
            if isVersionNegotiationFlag version then
              .ok ⟨Header.long (b0 - 128) destConnectionID srcConnectionID none none version
                     (bslice buf offset afterCIDs), afterCIDs⟩
            else
              match VLIE.decode buf afterCIDs with
              | .error e => .error e
              | .ok vlieOffset =>
                .ok ⟨Header.long (b0 - 128) destConnectionID srcConnectionID
                       (some (bslice buf vlieOffset.offset (vlieOffset.offset + 4)))
                       (some vlieOffset.value) version
                       (bslice buf offset (vlieOffset.offset + 4)), vlieOffset.offset + 4⟩

/-- `HeaderParser.parseHeader` (lines 54-68): dispatch on the most significant
bit of the first byte (`b0 / 128 % 2 = 1` is `(type & 0x80) === 0x80`). -/
def parseHeader (buf : List Nat) (offset : Nat) : Except Err HeaderOffset :=
  match readUInt8 buf offset with
  | .error e => .error e
  | .ok b0 =>
    if b0 / 128 % 2 = 1 then parseLongHeader buf offset
    else parseShortHeader buf offset

/-- Coalesced-packet loop of `HeaderParser.parse` (lines 29-46), with explicit
fuel.  `totalSize` and `headerSize` mirror the source's `Bignum` arithmetic;
on every call reachable from `parse` the parsed header's offset is strictly
above `totalSize`, so the `Nat` subtraction agrees with the `Bignum`
subtraction. -/
def parseLoop (buf : List Nat) : Nat → HeaderOffset → Nat → List HeaderOffset → Option (Except Err (List HeaderOffset))
  | 0, _, _, _ => none
  | fuel + 1, headerOffset, totalSize, acc =>
    match Header.getPayloadLength headerOffset.header with
    | none => some (.ok acc)
    | some payloadLength =>
      let headerSize := headerOffset.offset - totalSize
      let totalSize2 := totalSize + payloadLength + headerSize
      if totalSize2 < buf.length then
        match parseHeader buf totalSize2 with
        | .error e => some (.error e)
        | .ok next => parseLoop buf fuel next totalSize2 (acc ++ [next])
      else some (.ok acc)

/-- `HeaderParser.parse` (lines 21-52) before fuel discharge: parse the first
header at offset 0, then run the coalescing loop with fuel `buf.length + 1`. -/
def parseOpt (buf : List Nat) : Option (Except Err (List HeaderOffset)) :=
  match parseHeader buf 0 with
  | .error e => some (.error e)
  | .ok headerOffset => parseLoop buf (buf.length + 1) headerOffset 0 [headerOffset]

/-- `HeaderParser.parse` (lines 21-52).  The fuel `buf.length + 1` always
suffices (the termination theorem below), so the default is never reached. -/
def parse (buf : List Nat) : Except Err (List HeaderOffset) :=
  (parseOpt buf).getD (.error .RangeError)

end HeaderParser


/-! ## Shapes of successful parses

The following definitions name the exact `HeaderOffset` value each parsing
path produces on success, in terms of the input bytes; the inversion lemmas
below prove that every successful parse has the corresponding shape. -/

/-- Destination connection-ID length of a long header at `p`: the high nibble
of the connection-ID-lengths byte, through the length-class decode. -/
def dcil (buf : List Nat) (p : Nat) : Nat :=
  nibbleLength (buf.getD (p + 5) 0 / 16)

/-- Source connection-ID length of a long header at `p`: the low nibble of the
connection-ID-lengths byte, through the length-class decode. -/
def scil (buf : List Nat) (p : Nat) : Nat :=
  nibbleLength (buf.getD (p + 5) 0 % 16)

/-- The `HeaderOffset` a successful version-negotiation long-header parse at
`p` produces: no payload length, no packet number, offset immediately after
the source connection ID. -/
def longVNegHO (buf : List Nat) (p : Nat) : HeaderOffset :=
  ⟨Header.long (buf.getD p 0 - 128)
     ⟨bslice buf (p + 6) (p + 6 + dcil buf p), dcil buf p⟩
     ⟨bslice buf (p + 6 + dcil buf p) (p + 6 + dcil buf p + scil buf p), scil buf p⟩
     none none (bslice buf (p + 1) (p + 5))
     (bslice buf p (p + 6 + dcil buf p + scil buf p)),
   p + 6 + dcil buf p + scil buf p⟩

/-- The `HeaderOffset` a successful non-negotiation long-header parse at `p`
produces, given the result `vo` of the payload-length VLIE decode. -/
def longHO (buf : List Nat) (p : Nat) (vo : VLIEOffset) : HeaderOffset :=
  ⟨Header.long (buf.getD p 0 - 128)
     ⟨bslice buf (p + 6) (p + 6 + dcil buf p), dcil buf p⟩
     ⟨bslice buf (p + 6 + dcil buf p) (p + 6 + dcil buf p + scil buf p), scil buf p⟩
     (some (bslice buf vo.offset (vo.offset + 4))) (some vo.value)
     (bslice buf (p + 1) (p + 5))
     (bslice buf p (vo.offset + 4)),
   vo.offset + 4⟩

/-- The `HeaderOffset` a successful short-header parse at `p` produces: the
2-bit selector `buf[p] % 4` fixes the packet-number width `2 ^ selector`. -/
def shortHO (buf : List Nat) (p : Nat) : HeaderOffset :=
  ⟨Header.short (buf.getD p 0 % 4)
     ⟨bufCopy buf (p + 1) (buf.getD (p + 1) 0), buf.getD (p + 1) 0⟩
     (bslice buf (p + 1 + buf.getD (p + 1) 0)
       (p + 1 + buf.getD (p + 1) 0 + 2 ^ (buf.getD p 0 % 4)))
     (decide (buf.getD p 0 / 64 % 2 = 1)) (decide (buf.getD p 0 / 4 % 2 = 1))
     (bslice buf p (p + 1 + buf.getD (p + 1) 0 + 2 ^ (buf.getD p 0 % 4))),
   p + 1 + buf.getD (p + 1) 0 + 2 ^ (buf.getD p 0 % 4)⟩

/-! ## Basic lemmas -/

theorem readUInt8_ok {buf : List Nat} {off : Nat} (h : off < buf.length) :
    readUInt8 buf off = .ok (buf.getD off 0) := by
  simp [readUInt8, h]

theorem readUInt8_err {buf : List Nat} {off : Nat} (h : buf.length ≤ off) :
    readUInt8 buf off = .error .RangeError := by
  simp [readUInt8]
  omega

theorem bslice_length (buf : List Nat) (a b : Nat) :
    (bslice buf a b).length = min b buf.length - a := by
  simp [bslice]

theorem VLIE.decode_ok_inv {buf : List Nat} {q : Nat} {vo : VLIEOffset}
    (h : VLIE.decode buf q = .ok vo) :
    q < buf.length ∧ q < vo.offset ∧ vo.offset ≤ buf.length ∧
      vo.offset = q + 2 ^ (buf.getD q 0 / 64) := by
  unfold VLIE.decode at h
  split at h
  · exact absurd h (by simp)
  · dsimp only at h
    split at h
    · exact absurd h (by simp)
    · injection h with h'
      rw [← h']
      have hpow : 1 ≤ 2 ^ (buf.getD q 0 / 64) := Nat.one_le_two_pow
      dsimp only
      omega

theorem readUInt8_ok_inv {buf : List Nat} {off v : Nat} (h : readUInt8 buf off = .ok v) :
    off < buf.length ∧ v = buf.getD off 0 := by
  unfold readUInt8 at h
  split at h
  · injection h with h'
    exact ⟨by assumption, h'.symm⟩
  · exact absurd h (by simp)

theorem mkConnectionID_ok_inv {bytes : List Nat} {len : Nat} {c : ConnectionID}
    (h : mkConnectionID bytes len = .ok c) :
    (len = 0 ∨ (4 ≤ len ∧ len ≤ 18)) ∧ c = ⟨bytes, len⟩ := by
  unfold mkConnectionID at h
  split at h
  · injection h with h'
    exact ⟨by assumption, h'.symm⟩
  · exact absurd h (by simp)

theorem mkVersion_ok_inv {bytes v : List Nat} (h : mkVersion bytes = .ok v) :
    bytes.length = 4 ∧ v = bytes := by
  unfold mkVersion at h
  split at h
  · injection h with h'
    exact ⟨by assumption, h'.symm⟩
  · exact absurd h (by simp)

theorem nibbleLength_valid {n : Nat} (h : n ≤ 15) :
    nibbleLength n = 0 ∨ (4 ≤ nibbleLength n ∧ nibbleLength n ≤ 18) := by
  unfold nibbleLength
  split <;> omega

theorem nibbleLength_valid_inv {n : Nat}
    (h : nibbleLength n = 0 ∨ (4 ≤ nibbleLength n ∧ nibbleLength n ≤ 18)) : n ≤ 15 := by
  unfold nibbleLength at h
  split at h <;> omega

theorem getShortHeaderPacketNumber_ok_inv {type : Nat} {buffer : List Nat} {offset : Nat}
    {pn : List Nat} (h : HeaderParser.getShortHeaderPacketNumber type buffer offset = .ok pn) :
    type < 3 ∧ pn = bslice buffer offset (offset + 2 ^ type) := by
  unfold HeaderParser.getShortHeaderPacketNumber at h
  split at h
  · injection h with h'
    exact ⟨by omega, by rw [← h']; norm_num⟩
  · injection h with h'
    exact ⟨by omega, by rw [← h']; norm_num⟩
  · injection h with h'
    exact ⟨by omega, by rw [← h']; norm_num⟩
  · exact absurd h (by simp)

theorem getShortHeaderPacketNumber_err_inv {type : Nat} {buffer : List Nat} {offset : Nat}
    {e : Err} (h : HeaderParser.getShortHeaderPacketNumber type buffer offset = .error e) :
    e = .InvalidPacketNumberWidth ∧ 3 ≤ type := by
  unfold HeaderParser.getShortHeaderPacketNumber at h
  split at h
  · exact absurd h (by simp)
  · exact absurd h (by simp)
  · exact absurd h (by simp)
  · rename_i t h0 h1 h2
    injection h with h'
    refine ⟨h'.symm, ?_⟩
    simp only [imp_false] at h0 h1 h2
    omega

theorem parseShortHeader_ok_inv {buf : List Nat} {p : Nat} {ho : HeaderOffset}
    (h : HeaderParser.parseShortHeader buf p = .ok ho) :
    p + 1 < buf.length ∧
      (buf.getD (p + 1) 0 = 0 ∨ (4 ≤ buf.getD (p + 1) 0 ∧ buf.getD (p + 1) 0 ≤ 18)) ∧
      buf.getD p 0 % 4 < 3 ∧ ho = shortHO buf p := by
  unfold HeaderParser.parseShortHeader at h
  split at h
  · exact absurd h (by simp)
  · rename_i type0 hr0
    obtain ⟨hp0, ht0⟩ := readUInt8_ok_inv hr0
    dsimp only at h
    split at h
    · exact absurd h (by simp)
    · rename_i destLen hr1
      obtain ⟨hp1, hd1⟩ := readUInt8_ok_inv hr1
      split at h
      · exact absurd h (by simp)
      · rename_i destCID hcid
        obtain ⟨hlen, hcid'⟩ := mkConnectionID_ok_inv hcid
        split at h
        · exact absurd h (by simp)
        · rename_i pn hpn
          obtain ⟨hty, hpn'⟩ := getShortHeaderPacketNumber_ok_inv hpn
          injection h with h'
          subst ht0 hd1
          refine ⟨hp1, hlen, hty, ?_⟩
          rw [← h', hcid', hpn']
          unfold shortHO
          have h3 : buf.getD p 0 % 4 = 0 ∨ buf.getD p 0 % 4 = 1 ∨ buf.getD p 0 % 4 = 2 := by
            omega
          rcases h3 with h3 | h3 | h3 <;> rw [h3]

theorem readUInt8_err_inv {buf : List Nat} {off : Nat} {e : Err}
    (h : readUInt8 buf off = .error e) : e = .RangeError ∧ buf.length ≤ off := by
  unfold readUInt8 at h
  split at h
  · exact absurd h (by simp)
  · injection h with h'
    exact ⟨h'.symm, by omega⟩

theorem mkConnectionID_err_inv {bytes : List Nat} {len : Nat} {e : Err}
    (h : mkConnectionID bytes len = .error e) : e = .InvalidFieldLength := by
  unfold mkConnectionID at h
  split at h
  · exact absurd h (by simp)
  · injection h with h'
    exact h'.symm

theorem mkVersion_err_inv {bytes : List Nat} {e : Err}
    (h : mkVersion bytes = .error e) : e = .InvalidFieldLength := by
  unfold mkVersion at h
  split at h
  · exact absurd h (by simp)
  · injection h with h'
    exact h'.symm

theorem parseShortHeader_eq_ok {buf : List Nat} {p : Nat}
    (h1 : p + 1 < buf.length)
    (h2 : buf.getD (p + 1) 0 = 0 ∨ (4 ≤ buf.getD (p + 1) 0 ∧ buf.getD (p + 1) 0 ≤ 18))
    (h3 : buf.getD p 0 % 4 < 3) :
    HeaderParser.parseShortHeader buf p = .ok (shortHO buf p) := by
  have hp : p < buf.length := by omega
  unfold HeaderParser.parseShortHeader
  rw [readUInt8_ok hp, readUInt8_ok h1]
  dsimp only
  unfold mkConnectionID
  rw [if_pos h2]
  dsimp only
  have hsel : buf.getD p 0 % 4 = 0 ∨ buf.getD p 0 % 4 = 1 ∨ buf.getD p 0 % 4 = 2 := by
    omega
  unfold HeaderParser.getShortHeaderPacketNumber shortHO
  rcases hsel with hs | hs | hs <;> rw [hs] <;> rfl

theorem parseShortHeader_IPNW_inv {buf : List Nat} {p : Nat}
    (h : HeaderParser.parseShortHeader buf p = .error .InvalidPacketNumberWidth) :
    buf.getD p 0 % 4 = 3 := by
  unfold HeaderParser.parseShortHeader at h
  split at h
  · rename_i e hr0
    injection h with h'
    subst h'
    exact absurd (readUInt8_err_inv hr0).1 (by simp)
  · rename_i type0 hr0
    obtain ⟨hp0, ht0⟩ := readUInt8_ok_inv hr0
    dsimp only at h
    split at h
    · rename_i e hr1
      injection h with h'
      subst h'
      exact absurd (readUInt8_err_inv hr1).1 (by simp)
    · rename_i destLen hr1
      split at h
      · rename_i e hcid
        injection h with h'
        subst h'
        exact absurd (mkConnectionID_err_inv hcid) (by simp)
      · split at h
        · rename_i pn e hpn
          obtain ⟨he, hty⟩ := getShortHeaderPacketNumber_err_inv hpn
          subst ht0
          omega
        · exact absurd h (by simp)

theorem mkVersion_bslice_ok {buf : List Nat} {p : Nat} (h : p + 5 ≤ buf.length) :
    mkVersion (bslice buf (p + 1) (p + 5)) = .ok (bslice buf (p + 1) (p + 5)) := by
  unfold mkVersion
  rw [if_pos]
  rw [bslice_length]
  omega

theorem parseLongHeader_eq_vneg {buf : List Nat} {p : Nat}
    (h5 : p + 5 < buf.length) (hd : buf.getD (p + 5) 0 / 16 ≤ 15)
    (hv : isVersionNegotiationFlag (bslice buf (p + 1) (p + 5)) = true) :
    HeaderParser.parseLongHeader buf p = .ok (longVNegHO buf p) := by
  have hp : p < buf.length := by omega
  unfold HeaderParser.parseLongHeader
  rw [readUInt8_ok hp, mkVersion_bslice_ok (by omega), readUInt8_ok h5]
  dsimp only
  unfold mkConnectionID
  rw [if_pos (nibbleLength_valid hd), if_pos (nibbleLength_valid (by omega))]
  dsimp only
  rw [hv]
  rfl

theorem parseLongHeader_eq_ok {buf : List Nat} {p : Nat} {vo : VLIEOffset}
    (h5 : p + 5 < buf.length) (hd : buf.getD (p + 5) 0 / 16 ≤ 15)
    (hv : isVersionNegotiationFlag (bslice buf (p + 1) (p + 5)) = false)
    (hvo : VLIE.decode buf (p + 6 + dcil buf p + scil buf p) = .ok vo) :
    HeaderParser.parseLongHeader buf p = .ok (longHO buf p vo) := by
  have hp : p < buf.length := by omega
  unfold HeaderParser.parseLongHeader
  rw [readUInt8_ok hp, mkVersion_bslice_ok (by omega), readUInt8_ok h5]
  dsimp only
  unfold mkConnectionID
  rw [if_pos (nibbleLength_valid hd), if_pos (nibbleLength_valid (by omega))]
  try dsimp only
  rw [hv]
  try dsimp only [Bool.false_eq_true, if_false]
  rw [show nibbleLength (buf.getD (p + 5) 0 / 16) = dcil buf p from rfl,
      show nibbleLength (buf.getD (p + 5) 0 % 16) = scil buf p from rfl, hvo]
  rfl

theorem parseLongHeader_ok_inv {buf : List Nat} {p : Nat} {ho : HeaderOffset}
    (h : HeaderParser.parseLongHeader buf p = .ok ho) :
    p + 5 < buf.length ∧ buf.getD (p + 5) 0 / 16 ≤ 15 ∧
      ((isVersionNegotiationFlag (bslice buf (p + 1) (p + 5)) = true ∧ ho = longVNegHO buf p) ∨
       (isVersionNegotiationFlag (bslice buf (p + 1) (p + 5)) = false ∧
        ∃ vo, VLIE.decode buf (p + 6 + dcil buf p + scil buf p) = .ok vo ∧ ho = longHO buf p vo)) := by
  unfold HeaderParser.parseLongHeader at h
  split at h
  · exact absurd h (by simp)
  · rename_i b0 hr0
    obtain ⟨hp0, hb0⟩ := readUInt8_ok_inv hr0
    split at h
    · exact absurd h (by simp)
    · rename_i version hver
      obtain ⟨hvlen, hveq⟩ := mkVersion_ok_inv hver
      rw [bslice_length] at hvlen
      have h5 : p + 5 ≤ buf.length := by omega
      split at h
      · exact absurd h (by simp)
      · rename_i conLengths hr5
        obtain ⟨hp5, hcl⟩ := readUInt8_ok_inv hr5
        dsimp only at h
        split at h
        · exact absurd h (by simp)
        · rename_i destCID hdcid
          obtain ⟨hdlen, hdeq⟩ := mkConnectionID_ok_inv hdcid
          split at h
          · exact absurd h (by simp)
          · rename_i srcCID hscid
            obtain ⟨hslen, hseq⟩ := mkConnectionID_ok_inv hscid
            subst hb0 hcl hveq hdeq hseq
            refine ⟨hp5, nibbleLength_valid_inv hdlen, ?_⟩
            split at h
            · rename_i hneg
              injection h with h'
              exact Or.inl ⟨hneg, h'.symm⟩
            · rename_i hneg
              split at h
              · exact absurd h (by simp)
              · rename_i vo hvo
                injection h with h'
                exact Or.inr ⟨by simpa using hneg, vo, hvo, h'.symm⟩

theorem parseHeader_eq_long {buf : List Nat} {p : Nat}
    (hp : p < buf.length) (hb : buf.getD p 0 / 128 % 2 = 1) :
    HeaderParser.parseHeader buf p = HeaderParser.parseLongHeader buf p := by
  unfold HeaderParser.parseHeader
  rw [readUInt8_ok hp]
  dsimp only
  rw [if_pos hb]

theorem parseHeader_eq_short {buf : List Nat} {p : Nat}
    (hp : p < buf.length) (hb : ¬buf.getD p 0 / 128 % 2 = 1) :
    HeaderParser.parseHeader buf p = HeaderParser.parseShortHeader buf p := by
  unfold HeaderParser.parseHeader
  rw [readUInt8_ok hp]
  dsimp only
  rw [if_neg hb]

theorem parseHeader_ok_inv {buf : List Nat} {p : Nat} {ho : HeaderOffset}
    (h : HeaderParser.parseHeader buf p = .ok ho) :
    (buf.getD p 0 / 128 % 2 = 1 ∧ HeaderParser.parseLongHeader buf p = .ok ho) ∨
      (¬buf.getD p 0 / 128 % 2 = 1 ∧ HeaderParser.parseShortHeader buf p = .ok ho) := by
  unfold HeaderParser.parseHeader at h
  split at h
  · exact absurd h (by simp)
  · rename_i b0 hr0
    obtain ⟨hp0, hb0⟩ := readUInt8_ok_inv hr0
    subst hb0
    split at h
    · exact Or.inl ⟨by assumption, h⟩
    · exact Or.inr ⟨by assumption, h⟩

theorem parseHeader_ok_offset {buf : List Nat} {p : Nat} {ho : HeaderOffset}
    (h : HeaderParser.parseHeader buf p = .ok ho) : p + 2 ≤ ho.offset := by
  rcases parseHeader_ok_inv h with ⟨_, hl⟩ | ⟨_, hs⟩
  · obtain ⟨h5, hd, hcase⟩ := parseLongHeader_ok_inv hl
    rcases hcase with ⟨_, rfl⟩ | ⟨_, vo, hvo, rfl⟩
    · unfold longVNegHO
      dsimp only
      omega
    · obtain ⟨hq, hlt, hle, hoff⟩ := VLIE.decode_ok_inv hvo
      unfold longHO
      dsimp only
      omega
  · obtain ⟨h1, h2, h3, rfl⟩ := parseShortHeader_ok_inv hs
    unfold shortHO
    dsimp only
    have : 1 ≤ 2 ^ (buf.getD p 0 % 4) := Nat.one_le_two_pow
    omega

/-! ## Loop lemmas -/

theorem parseLoop_succ (buf : List Nat) (fuel : Nat) (ho : HeaderOffset) (t : Nat)
    (acc : List HeaderOffset) :
    HeaderParser.parseLoop buf (fuel + 1) ho t acc =
      match Header.getPayloadLength ho.header with
      | none => some (.ok acc)
      | some payloadLength =>
        if t + payloadLength + (ho.offset - t) < buf.length then
          match HeaderParser.parseHeader buf (t + payloadLength + (ho.offset - t)) with
          | .error e => some (.error e)
          | .ok next =>
            HeaderParser.parseLoop buf fuel next (t + payloadLength + (ho.offset - t)) (acc ++ [next])
        else some (.ok acc) := by
  rfl


theorem parseLoop_isSome (buf : List Nat) :
    ∀ (fuel : Nat) (ho : HeaderOffset) (totalSize : Nat) (acc : List HeaderOffset),
      totalSize < ho.offset → buf.length + 1 ≤ fuel + totalSize → 1 ≤ fuel →
      (HeaderParser.parseLoop buf fuel ho totalSize acc).isSome = true := by
  intro fuel
  induction fuel with
  | zero => intro ho t acc h1 h2 h3; omega
  | succ fuel ih =>
    intro ho t acc h1 h2 _
    rw [parseLoop_succ]
    cases hpl : Header.getPayloadLength ho.header with
    | none => simp
    | some payloadLength =>
      dsimp only
      by_cases hguard : t + payloadLength + (ho.offset - t) < buf.length
      · rw [if_pos hguard]
        cases hph : HeaderParser.parseHeader buf (t + payloadLength + (ho.offset - t)) with
        | error e => simp
        | ok ho2 =>
          have hofs := parseHeader_ok_offset hph
          exact ih ho2 _ _ (by omega) (by omega) (by omega)
      · rw [if_neg hguard]
        simp

theorem parse_eq_of_parseOpt {buf : List Nat} {r : Except Err (List HeaderOffset)}
    (h : HeaderParser.parseOpt buf = some r) : HeaderParser.parse buf = r := by
  unfold HeaderParser.parse
  rw [h]
  rfl

theorem parse_two_aux {buf : List Nat} {ho1 : HeaderOffset} {p1 : Nat} {ho2 : HeaderOffset}
    (h0 : HeaderParser.parseHeader buf 0 = .ok ho1)
    (hpl1 : Header.getPayloadLength ho1.header = some p1)
    (hq : ho1.offset + p1 < buf.length)
    (h2 : HeaderParser.parseHeader buf (ho1.offset + p1) = .ok ho2) :
    HeaderParser.parseOpt buf =
      HeaderParser.parseLoop buf buf.length ho2 (ho1.offset + p1) [ho1, ho2] := by
  unfold HeaderParser.parseOpt
  rw [h0]
  dsimp only
  rw [parseLoop_succ, hpl1]
  dsimp only
  have ht2 : 0 + p1 + (ho1.offset - 0) = ho1.offset + p1 := by omega
  rw [ht2, if_pos hq, h2]
  rfl

theorem parse_two_short {buf : List Nat} {ho1 : HeaderOffset} {p1 : Nat} {ho2 : HeaderOffset}
    (h0 : HeaderParser.parseHeader buf 0 = .ok ho1)
    (hpl1 : Header.getPayloadLength ho1.header = some p1)
    (hq : ho1.offset + p1 < buf.length)
    (h2 : HeaderParser.parseHeader buf (ho1.offset + p1) = .ok ho2)
    (hpl2 : Header.getPayloadLength ho2.header = none) :
    HeaderParser.parse buf = .ok [ho1, ho2] := by
  apply parse_eq_of_parseOpt
  rw [parse_two_aux h0 hpl1 hq h2]
  obtain ⟨m, hm⟩ : ∃ m, buf.length = m + 1 := ⟨buf.length - 1, by omega⟩
  rw [hm]
  rw [parseLoop_succ, hpl2]

theorem parse_two_long {buf : List Nat} {ho1 : HeaderOffset} {p1 : Nat} {ho2 : HeaderOffset}
    {p2 : Nat}
    (h0 : HeaderParser.parseHeader buf 0 = .ok ho1)
    (hpl1 : Header.getPayloadLength ho1.header = some p1)
    (hq : ho1.offset + p1 < buf.length)
    (h2 : HeaderParser.parseHeader buf (ho1.offset + p1) = .ok ho2)
    (hpl2 : Header.getPayloadLength ho2.header = some p2)
    (hstop : buf.length ≤ ho2.offset + p2) :
    HeaderParser.parse buf = .ok [ho1, ho2] := by
  apply parse_eq_of_parseOpt
  rw [parse_two_aux h0 hpl1 hq h2]
  obtain ⟨m, hm⟩ : ∃ m, buf.length = m + 1 := ⟨buf.length - 1, by omega⟩
  rw [hm]
  rw [parseLoop_succ, hpl2]
  dsimp only
  have hofs := parseHeader_ok_offset h2
  have ht2 : ho1.offset + p1 + p2 + (ho2.offset - (ho1.offset + p1)) = ho2.offset + p2 := by
    omega
  rw [ht2, if_neg (by omega)]

/-! ## Frame lemmas: a parse whose result lies inside the first `B.length`
bytes is unchanged by bytes appended after them. -/

theorem getD_append_left {B rest : List Nat} {a : Nat} (h : a < B.length) :
    (B ++ rest).getD a 0 = B.getD a 0 :=
  List.getD_append _ _ _ _ h

theorem bslice_append_left {B rest : List Nat} {a b : Nat} (h : b ≤ B.length) :
    bslice (B ++ rest) a b = bslice B a b := by
  unfold bslice
  rw [List.take_append_of_le_length h]

theorem bufCopy_append_left {B rest : List Nat} {start len : Nat}
    (h : start + len ≤ B.length) :
    bufCopy (B ++ rest) start len = bufCopy B start len := by
  unfold bufCopy
  rw [bslice_append_left h]

theorem readUInt8_append_left {B rest : List Nat} {a : Nat} (h : a < B.length) :
    readUInt8 (B ++ rest) a = readUInt8 B a := by
  rw [readUInt8_ok h, readUInt8_ok (by rw [List.length_append]; omega), getD_append_left h]

theorem VLIE.decode_eq_ok {buf : List Nat} {q : Nat}
    (h : q + 2 ^ (buf.getD q 0 / 64) ≤ buf.length) :
    VLIE.decode buf q =
      .ok ⟨(bslice buf (q + 1) (q + 2 ^ (buf.getD q 0 / 64))).foldl
             (fun a b => a * 256 + b) (buf.getD q 0 % 64),
           q + 2 ^ (buf.getD q 0 / 64)⟩ := by
  have hpow : 1 ≤ 2 ^ (buf.getD q 0 / 64) := Nat.one_le_two_pow
  unfold VLIE.decode
  rw [if_neg (by omega)]
  dsimp only
  rw [if_neg (by omega)]

theorem VLIE.decode_append_left {B rest : List Nat} {q : Nat} {vo : VLIEOffset}
    (h : VLIE.decode B q = .ok vo) : VLIE.decode (B ++ rest) q = .ok vo := by
  obtain ⟨hq, hlt, hle, hoff⟩ := VLIE.decode_ok_inv h
  have hgd : (B ++ rest).getD q 0 = B.getD q 0 := getD_append_left hq
  rw [VLIE.decode_eq_ok (by omega : q + 2 ^ (B.getD q 0 / 64) ≤ B.length)] at h
  rw [VLIE.decode_eq_ok (by rw [hgd, List.length_append]; omega)]
  rw [← h, hgd, bslice_append_left (by omega)]

theorem parseShortHeader_append_left {B rest : List Nat} {p : Nat} {ho : HeaderOffset}
    (h : HeaderParser.parseShortHeader B p = .ok ho) (hb : ho.offset ≤ B.length) :
    HeaderParser.parseShortHeader (B ++ rest) p = .ok ho := by
  obtain ⟨h1, h2, h3, rfl⟩ := parseShortHeader_ok_inv h
  have hpow : 1 ≤ 2 ^ (B.getD p 0 % 4) := Nat.one_le_two_pow
  have hoff : p + 1 + B.getD (p + 1) 0 + 2 ^ (B.getD p 0 % 4) ≤ B.length := hb
  have hg0 : (B ++ rest).getD p 0 = B.getD p 0 := getD_append_left (by omega)
  have hg1 : (B ++ rest).getD (p + 1) 0 = B.getD (p + 1) 0 := getD_append_left (by omega)
  have hlen : p + 1 < (B ++ rest).length := by
    rw [List.length_append]
    omega
  have hres := parseShortHeader_eq_ok hlen (by rw [hg1]; exact h2) (by rw [hg0]; exact h3)
  rw [hres]
  unfold shortHO
  rw [hg0, hg1,
      @bufCopy_append_left B rest (p + 1) (B.getD (p + 1) 0) (by omega),
      @bslice_append_left B rest (p + 1 + B.getD (p + 1) 0)
        (p + 1 + B.getD (p + 1) 0 + 2 ^ (B.getD p 0 % 4)) (by omega),
      @bslice_append_left B rest p
        (p + 1 + B.getD (p + 1) 0 + 2 ^ (B.getD p 0 % 4)) (by omega)]

theorem parseLongHeader_append_left {B rest : List Nat} {p : Nat} {ho : HeaderOffset}
    (h : HeaderParser.parseLongHeader B p = .ok ho) (hb : ho.offset ≤ B.length) :
    HeaderParser.parseLongHeader (B ++ rest) p = .ok ho := by
  obtain ⟨h5, hd, hcase⟩ := parseLongHeader_ok_inv h
  have hg0 : (B ++ rest).getD p 0 = B.getD p 0 := getD_append_left (by omega)
  have hg5 : (B ++ rest).getD (p + 5) 0 = B.getD (p + 5) 0 := getD_append_left h5
  have hdcil : dcil (B ++ rest) p = dcil B p := by
    unfold dcil
    rw [hg5]
  have hscil : scil (B ++ rest) p = scil B p := by
    unfold scil
    rw [hg5]
  have hver : bslice (B ++ rest) (p + 1) (p + 5) = bslice B (p + 1) (p + 5) :=
    @bslice_append_left B rest (p + 1) (p + 5) (by omega)
  have hlen5 : p + 5 < (B ++ rest).length := by
    rw [List.length_append]
    omega
  rcases hcase with ⟨hv, rfl⟩ | ⟨hv, vo, hvo, rfl⟩
  · have hoff : p + 6 + dcil B p + scil B p ≤ B.length := hb
    have hres := parseLongHeader_eq_vneg hlen5 (by rw [hg5]; exact hd) (by rw [hver]; exact hv)
    rw [hres]
    unfold longVNegHO
    rw [hdcil, hscil, hg0, hver,
        @bslice_append_left B rest (p + 6) (p + 6 + dcil B p) (by omega),
        @bslice_append_left B rest (p + 6 + dcil B p) (p + 6 + dcil B p + scil B p) (by omega),
        @bslice_append_left B rest p (p + 6 + dcil B p + scil B p) (by omega)]
  · have hoff : vo.offset + 4 ≤ B.length := hb
    obtain ⟨hq, hlt, hle, hvoff⟩ := VLIE.decode_ok_inv hvo
    have hres := parseLongHeader_eq_ok hlen5 (by rw [hg5]; exact hd) (by rw [hver]; simpa using hv)
      (by rw [hdcil, hscil]; exact VLIE.decode_append_left hvo)
    rw [hres]
    unfold longHO
    rw [hdcil, hscil, hg0, hver,
        @bslice_append_left B rest (p + 6) (p + 6 + dcil B p) (by omega),
        @bslice_append_left B rest (p + 6 + dcil B p) (p + 6 + dcil B p + scil B p) (by omega),
        @bslice_append_left B rest vo.offset (vo.offset + 4) (by omega),
        @bslice_append_left B rest p (vo.offset + 4) (by omega)]

theorem parseHeader_append_left {B rest : List Nat} {p : Nat} {ho : HeaderOffset}
    (h : HeaderParser.parseHeader B p = .ok ho) (hb : ho.offset ≤ B.length) :
    HeaderParser.parseHeader (B ++ rest) p = .ok ho := by
  have hofs := parseHeader_ok_offset h
  have hp : p < B.length := by omega
  have hg0 : (B ++ rest).getD p 0 = B.getD p 0 := getD_append_left hp
  have hp' : p < (B ++ rest).length := by
    rw [List.length_append]
    omega
  rcases parseHeader_ok_inv h with ⟨hbit, hl⟩ | ⟨hbit, hs⟩
  · rw [parseHeader_eq_long hp' (by rw [hg0]; exact hbit)]
    exact parseLongHeader_append_left hl hb
  · rw [parseHeader_eq_short hp' (by rw [hg0]; exact hbit)]
    exact parseShortHeader_append_left hs hb

theorem getPayloadLength_eq_none_of_short {h : Header}
    (hs : Header.isShortHeader h = true) : Header.getPayloadLength h = none := by
  cases h
  · simp [Header.isShortHeader] at hs
  · rfl

/-! ## Claim theorems -/

/-- C5: `HeaderParser.parse` terminates on every input buffer: every parsed
header consumes at least one byte (in fact at least two), so the cumulative
consumed size strictly increases on each iteration of the coalesced-packet
loop and fuel `buf.length + 1` never runs out — `parseOpt` always returns a
result, for every buffer. -/
theorem parse_terminates (buf : List Nat) : (HeaderParser.parseOpt buf).isSome = true := by
  unfold HeaderParser.parseOpt
  cases hph : HeaderParser.parseHeader buf 0 with
  | error e => simp
  | ok ho =>
    have := parseHeader_ok_offset hph
    exact parseLoop_isSome buf (buf.length + 1) ho 0 [ho] (by omega) (by omega) (by omega)

/-- C6: for every successful header parse, long or short, the raw header span
stored on the header via `setParsedBuffer` is exactly the buffer bytes
`[start, offset)` of that packet, and the returned offset lies strictly past
the packet start (it is the first payload byte). -/
theorem parse_header_span_invariant {buf : List Nat} {p : Nat} {ho : HeaderOffset}
    (h : HeaderParser.parseHeader buf p = .ok ho) :
    Header.getParsedBuffer ho.header = bslice buf p ho.offset ∧ p < ho.offset := by
  have hofs := parseHeader_ok_offset h
  refine ⟨?_, by omega⟩
  rcases parseHeader_ok_inv h with ⟨_, hl⟩ | ⟨_, hs⟩
  · obtain ⟨h5, hd, hcase⟩ := parseLongHeader_ok_inv hl
    rcases hcase with ⟨_, rfl⟩ | ⟨_, vo, hvo, rfl⟩
    · rfl
    · rfl
  · obtain ⟨h1, h2, h3, rfl⟩ := parseShortHeader_ok_inv hs
    rfl

/-- C7: in a successful long-header parse at `p`, the connection-ID-lengths
byte `buf[p+5]` decodes with its high nibble as the destination length class
and its low nibble as the source length class (class 0 gives length 0, class
n > 0 gives n + 3), and the destination and source connection IDs consume
exactly those bytes: `[p+6, p+6+dcil)` then `[p+6+dcil, p+6+dcil+scil)`. -/
theorem parse_long_connection_id_lengths {buf : List Nat} {p : Nat} {ho : HeaderOffset}
    (h : HeaderParser.parseLongHeader buf p = .ok ho) :
    Header.getDestConnectionID ho.header =
      ⟨bslice buf (p + 6) (p + 6 + dcil buf p), dcil buf p⟩ ∧
    Header.getSrcConnectionID ho.header =
      some ⟨bslice buf (p + 6 + dcil buf p) (p + 6 + dcil buf p + scil buf p), scil buf p⟩ ∧
    dcil buf p = (if buf.getD (p + 5) 0 / 16 = 0 then 0 else buf.getD (p + 5) 0 / 16 + 3) ∧
    scil buf p = (if buf.getD (p + 5) 0 % 16 = 0 then 0 else buf.getD (p + 5) 0 % 16 + 3) := by
  obtain ⟨h5, hd, hcase⟩ := parseLongHeader_ok_inv h
  rcases hcase with ⟨_, rfl⟩ | ⟨_, vo, hvo, rfl⟩
  · exact ⟨rfl, rfl, rfl, rfl⟩
  · exact ⟨rfl, rfl, rfl, rfl⟩

/-- C8: in a successful short-header parse at `p`, the 2-bit selector
`buf[p] % 4` is 0, 1 or 2, the packet number is read as exactly
`2 ^ selector` bytes (1, 2, or 4) starting right after the connection ID,
and the returned offset advances past exactly those bytes. -/
theorem parse_short_pn_widths {buf : List Nat} {p : Nat} {ho : HeaderOffset}
    (h : HeaderParser.parseShortHeader buf p = .ok ho) :
    buf.getD p 0 % 4 < 3 ∧
    Header.getPacketNumber ho.header =
      some (bslice buf (p + 1 + buf.getD (p + 1) 0)
        (p + 1 + buf.getD (p + 1) 0 + 2 ^ (buf.getD p 0 % 4))) ∧
    ho.offset = p + 1 + buf.getD (p + 1) 0 + 2 ^ (buf.getD p 0 % 4) := by
  obtain ⟨h1, h2, h3, rfl⟩ := parseShortHeader_ok_inv h
  exact ⟨h3, rfl, rfl⟩

/-- C4: for every buffer whose first byte has the most significant bit set and
whose 4-byte version field is the version-negotiation sentinel, a successful
header parse carries no payload length and no packet number, and the returned
offset points immediately after the source connection ID
(`6 + dcil + scil` bytes from the start). -/
theorem parse_version_negotiation_shape {buf : List Nat} {ho : HeaderOffset}
    (h : HeaderParser.parseHeader buf 0 = .ok ho)
    (hmsb : buf.getD 0 0 / 128 % 2 = 1)
    (hv : isVersionNegotiationFlag (bslice buf 1 5) = true) :
    Header.getPayloadLength ho.header = none ∧
    Header.getPacketNumber ho.header = none ∧
    ho.offset = 6 + dcil buf 0 + scil buf 0 := by
  rcases parseHeader_ok_inv h with ⟨_, hl⟩ | ⟨hbit, _⟩
  · obtain ⟨h5, hd, hcase⟩ := parseLongHeader_ok_inv hl
    rcases hcase with ⟨hneg, rfl⟩ | ⟨hneg, vo, hvo, rfl⟩
    · refine ⟨rfl, rfl, ?_⟩
      unfold longVNegHO
      dsimp only
    · norm_num at hneg
      rw [hv] at hneg
      simp at hneg
  · exact absurd hmsb hbit

/-- C4 witness: a 6-byte version-negotiation long header with empty connection
IDs parses with both optional fields absent and offset 6. -/
theorem parse_version_negotiation_shape_witness :
    Header.getPayloadLength (Header.long 0 ⟨[], 0⟩ ⟨[], 0⟩ none none [0, 0, 0, 0]
      [128, 0, 0, 0, 0, 0]) = none ∧
    Header.getPacketNumber (Header.long 0 ⟨[], 0⟩ ⟨[], 0⟩ none none [0, 0, 0, 0]
      [128, 0, 0, 0, 0, 0]) = none ∧
    (6 : Nat) = 6 + dcil [128, 0, 0, 0, 0, 0] 0 + scil [128, 0, 0, 0, 0, 0] 0 :=
  @parse_version_negotiation_shape [128, 0, 0, 0, 0, 0]
    ⟨Header.long 0 ⟨[], 0⟩ ⟨[], 0⟩ none none [0, 0, 0, 0] [128, 0, 0, 0, 0, 0], 6⟩
    (by rfl) (by rfl) (by rfl)

/-- C6 witness: the 2-byte short header `[0, 0]` parses with raw span
`[start, offset) = [0, 2)` equal to the whole buffer. -/
theorem parse_header_span_invariant_witness :
    Header.getParsedBuffer (Header.short 0 ⟨[], 0⟩ [0] false false [0, 0]) =
      bslice [0, 0] 0 2 ∧ (0 : Nat) < 2 :=
  @parse_header_span_invariant [0, 0] 0
    ⟨Header.short 0 ⟨[], 0⟩ [0] false false [0, 0], 2⟩ (by rfl)

/-- C7 witness: connection-ID-lengths byte 0x11 gives length class 1 on both
nibbles, hence 4-byte destination and source connection IDs. -/
theorem parse_long_connection_id_lengths_witness :
    Header.getDestConnectionID (Header.long 0 ⟨[10, 11, 12, 13], 4⟩ ⟨[20, 21, 22, 23], 4⟩
        none none [0, 0, 0, 0] [128, 0, 0, 0, 0, 17, 10, 11, 12, 13, 20, 21, 22, 23]) =
      ⟨[10, 11, 12, 13], 4⟩ ∧
    Header.getSrcConnectionID (Header.long 0 ⟨[10, 11, 12, 13], 4⟩ ⟨[20, 21, 22, 23], 4⟩
        none none [0, 0, 0, 0] [128, 0, 0, 0, 0, 17, 10, 11, 12, 13, 20, 21, 22, 23]) =
      some ⟨[20, 21, 22, 23], 4⟩ ∧
    dcil [128, 0, 0, 0, 0, 17, 10, 11, 12, 13, 20, 21, 22, 23] 0 = 4 ∧
    scil [128, 0, 0, 0, 0, 17, 10, 11, 12, 13, 20, 21, 22, 23] 0 = 4 :=
  @parse_long_connection_id_lengths [128, 0, 0, 0, 0, 17, 10, 11, 12, 13, 20, 21, 22, 23] 0
    ⟨Header.long 0 ⟨[10, 11, 12, 13], 4⟩ ⟨[20, 21, 22, 23], 4⟩ none none [0, 0, 0, 0]
       [128, 0, 0, 0, 0, 17, 10, 11, 12, 13, 20, 21, 22, 23], 14⟩ (by rfl)

/-- C8 witness: a short header with selector 1 and a 4-byte connection ID
reads a 2-byte packet number and ends at offset 7. -/
theorem parse_short_pn_widths_witness :
    (1 : Nat) < 3 ∧
    Header.getPacketNumber (Header.short 1 ⟨[4, 7, 8, 9], 4⟩ [170, 187] false false
      [1, 4, 7, 8, 9, 170, 187]) = some [170, 187] ∧
    (7 : Nat) = 7 :=
  @parse_short_pn_widths [1, 4, 7, 8, 9, 170, 187] 0
    ⟨Header.short 1 ⟨[4, 7, 8, 9], 4⟩ [170, 187] false false [1, 4, 7, 8, 9, 170, 187], 7⟩
    (by rfl)

/-- The payload-start offsets of a parse result. -/
def resultOffsets (r : Except Err (List HeaderOffset)) : Except Err (List Nat) :=
  r.map (List.map HeaderOffset.offset)

/-- The payload-length fields of a parse result. -/
def resultPayloadLengths (r : Except Err (List HeaderOffset)) : Except Err (List (Option Nat)) :=
  r.map (List.map (Header.getPayloadLength ∘ HeaderOffset.header))

/-- Two coalesced long-header packets: an 11-byte long header declaring
payload length 11, 11 payload bytes, then an 11-byte long header declaring
payload length 0. -/
def twoLongBuf : List Nat :=
  [128, 0, 0, 0, 1, 0, 11, 1, 2, 3, 4,
   9, 9, 9, 9, 9, 9, 9, 9, 9, 9, 9,
   128, 0, 0, 0, 1, 0, 0, 5, 6, 7, 8]

/-- C1 counterexample: on `twoLongBuf` the split returns two entries with
offsets 11 and 33 and payload lengths 11 and 0, but the claimed equality
`second offset = first offset + first payload length` would require
`11 + 11 = 33`, which is false — the second entry's offset is the second
packet's payload start, which lies one whole header past `11 + 11 = 22`. -/
theorem coalesced_split_offset_counterexample :
    resultOffsets (HeaderParser.parse twoLongBuf) = .ok [11, 33] ∧
    resultPayloadLengths (HeaderParser.parse twoLongBuf) = .ok [some 11, some 0] ∧
    ¬(33 = 11 + 11) :=
  ⟨rfl, rfl, by decide⟩

/-- C1 (amended): for a buffer holding exactly two coalesced long-header
packets — the first's declared payload length spanning exactly to the start of
the second header, the second spanning to the end of the buffer — `parse`
returns exactly the two `HeaderOffset` entries, where the second packet is
parsed starting at (first entry's offset + first payload length) and the
second entry's offset is strictly beyond that point, by the size of the
second packet's own header. -/
theorem coalesced_split_two_long {buf : List Nat} {ho1 : HeaderOffset} {p1 : Nat}
    {ho2 : HeaderOffset} {p2 : Nat}
    (h0 : HeaderParser.parseHeader buf 0 = .ok ho1)
    (hpl1 : Header.getPayloadLength ho1.header = some p1)
    (hq : ho1.offset + p1 < buf.length)
    (h2 : HeaderParser.parseHeader buf (ho1.offset + p1) = .ok ho2)
    (hpl2 : Header.getPayloadLength ho2.header = some p2)
    (hstop : buf.length ≤ ho2.offset + p2) :
    HeaderParser.parse buf = .ok [ho1, ho2] ∧ ho1.offset + p1 < ho2.offset :=
  ⟨parse_two_long h0 hpl1 hq h2 hpl2 hstop,
   by have := parseHeader_ok_offset h2; omega⟩

/-- First `HeaderOffset` of `twoLongBuf`. -/
def twoLongHO1 : HeaderOffset :=
  ⟨Header.long 0 ⟨[], 0⟩ ⟨[], 0⟩ (some [1, 2, 3, 4]) (some 11) [0, 0, 0, 1]
     [128, 0, 0, 0, 1, 0, 11, 1, 2, 3, 4], 11⟩

/-- Second `HeaderOffset` of `twoLongBuf`. -/
def twoLongHO2 : HeaderOffset :=
  ⟨Header.long 0 ⟨[], 0⟩ ⟨[], 0⟩ (some [5, 6, 7, 8]) (some 0) [0, 0, 0, 1]
     [128, 0, 0, 0, 1, 0, 0, 5, 6, 7, 8], 33⟩

/-- C1 witness: the amended statement at `twoLongBuf`. -/
theorem coalesced_split_two_long_witness :
    HeaderParser.parse twoLongBuf = .ok [twoLongHO1, twoLongHO2] ∧
    twoLongHO1.offset + 11 < twoLongHO2.offset :=
  @coalesced_split_two_long twoLongBuf twoLongHO1 11 twoLongHO2 0
    (by rfl) (by rfl) (by decide) (by rfl) (by rfl) (by decide)

/-- C2 counterexample: the defensive failure branch is reachable — a short
header whose first byte has low two bits 3 (e.g. `0x03`) makes the whole
header parse fail with `InvalidPacketNumberWidth`, refuting "this failure
branch is unreachable for every input byte". -/
theorem ipnw_reachable_counterexample :
    HeaderParser.parseHeader [3, 0] 0 = .error .InvalidPacketNumberWidth :=
  rfl

/-- C2 (amended): short-header parsing fails with `InvalidPacketNumberWidth`
only when the 2-bit width selector (the low two bits of the first byte) is 3:
selectors 0, 1, 2 are mapped to the 1/2/4-byte widths, selector 3 is mapped to
no width, and that branch is reachable (first byte `0x03`). -/
theorem ipnw_iff_selector_three :
    (∀ (buf : List Nat) (p : Nat),
      HeaderParser.parseShortHeader buf p = .error .InvalidPacketNumberWidth →
        buf.getD p 0 % 4 = 3) ∧
    HeaderParser.parseShortHeader [3, 0] 0 = .error .InvalidPacketNumberWidth :=
  ⟨fun _ _ h => parseShortHeader_IPNW_inv h, rfl⟩

/-- C2 witness: the only-if direction applied at the concrete failing buffer
`[7, 0]` (first byte `0x07`, selector 3). -/
theorem ipnw_iff_selector_three_witness : ([7, 0] : List Nat).getD 0 0 % 4 = 3 :=
  ipnw_iff_selector_three.1 [7, 0] 0 rfl

/-- C3: the code accepts this truncated long header instead of failing with
`TruncatedInput`.  The 8-byte buffer `[0x80, 0,0,0,1, 0x00, 0x00, 0xAA]`
(long header, version 1, empty connection IDs, payload-length VarInt 0) ends
after a single packet-number byte, yet `parseLongHeader` succeeds, returning a
1-byte packet-number slice and offset 11 — three bytes past the end of the
buffer.  The fixed-size packet-number read silently clamps instead of
producing the typed `TruncatedInput` error the contract requires. -/
theorem truncated_pn_silently_accepted :
    HeaderParser.parseLongHeader [128, 0, 0, 0, 1, 0, 0, 170] 0 =
      .ok ⟨Header.long 0 ⟨[], 0⟩ ⟨[], 0⟩ (some [170]) (some 0) [0, 0, 0, 1]
             [128, 0, 0, 0, 1, 0, 0, 170], 11⟩ ∧
    ([128, 0, 0, 0, 1, 0, 0, 170] : List Nat).length < 11 :=
  ⟨rfl, by decide⟩

/-- C9: for a buffer `B` holding a long-header packet (payload spanning
exactly to the start of the next header) followed by a short header whose
header bytes end inside `B`, the split of `B` extended by ANY further bytes
returns exactly the two entries parsed from `B` — the parser reads nothing
beyond the short header's own header bytes, and the short header ends the
scan. -/
theorem long_then_short_terminal {B : List Nat} {ho1 : HeaderOffset} {p1 : Nat}
    {ho2 : HeaderOffset}
    (h0 : HeaderParser.parseHeader B 0 = .ok ho1)
    (hpl1 : Header.getPayloadLength ho1.header = some p1)
    (hq : ho1.offset + p1 < B.length)
    (h2 : HeaderParser.parseHeader B (ho1.offset + p1) = .ok ho2)
    (hshort : Header.isShortHeader ho2.header = true)
    (hend : ho2.offset ≤ B.length) :
    ∀ rest : List Nat, HeaderParser.parse (B ++ rest) = .ok [ho1, ho2] := by
  intro rest
  have hofs1 := parseHeader_ok_offset h0
  have h0' : HeaderParser.parseHeader (B ++ rest) 0 = .ok ho1 :=
    parseHeader_append_left h0 (by omega)
  have h2' : HeaderParser.parseHeader (B ++ rest) (ho1.offset + p1) = .ok ho2 :=
    parseHeader_append_left h2 hend
  have hq' : ho1.offset + p1 < (B ++ rest).length := by
    rw [List.length_append]
    omega
  exact parse_two_short h0' hpl1 hq' h2' (getPayloadLength_eq_none_of_short hshort)

/-- A long header with payload length 0 followed immediately by a 2-byte short
header ending exactly at the end of the buffer. -/
def longShortBuf : List Nat :=
  [128, 0, 0, 0, 1, 0, 0, 1, 2, 3, 4, 0, 0]

/-- First `HeaderOffset` of `longShortBuf`. -/
def longShortHO1 : HeaderOffset :=
  ⟨Header.long 0 ⟨[], 0⟩ ⟨[], 0⟩ (some [1, 2, 3, 4]) (some 0) [0, 0, 0, 1]
     [128, 0, 0, 0, 1, 0, 0, 1, 2, 3, 4], 11⟩

/-- Second `HeaderOffset` of `longShortBuf` (the short header). -/
def longShortHO2 : HeaderOffset :=
  ⟨Header.short 0 ⟨[], 0⟩ [0] false false [0, 0], 13⟩

/-- C9 witness: the terminal rule at `longShortBuf`, extended with one extra
byte of would-be short-header payload. -/
theorem long_then_short_terminal_witness :
    HeaderParser.parse (longShortBuf ++ [42]) = .ok [longShortHO1, longShortHO2] :=
  @long_then_short_terminal longShortBuf longShortHO1 0 longShortHO2
    (by rfl) (by rfl) (by decide) (by rfl) (by rfl) (by decide) [42]

/-- C10: VLIE round-trip and canonicity.  For every value representable in 62
bits, decoding the encoding of `v` from offset 0 yields `v` with the new
offset equal to the encoding's length, and the encoding's length is the
minimal of the 1/2/4/8-byte forms able to hold `v`. -/
theorem vlie_roundtrip (v : Nat) (hv : v < 2 ^ 62) :
    decodeEncoded v = .ok ⟨v, vlieMinLen v⟩ ∧
    (VLIE.encode v).map List.length = .ok (vlieMinLen v) := by
  by_cases h1 : v < 2 ^ 6
  · have e1 : VLIE.encode v = .ok [v] := by
      unfold VLIE.encode
      rw [if_pos h1]
    have hmin : vlieMinLen v = 1 := by
      unfold vlieMinLen
      rw [if_pos h1]
    refine ⟨?_, by rw [e1, hmin]; rfl⟩
    unfold decodeEncoded
    rw [e1, hmin]
    show VLIE.decode [v] 0 = .ok ⟨v, 1⟩
    have hb : v / 64 = 0 := by omega
    have hm : v % 64 = v := by omega
    unfold VLIE.decode
    simp [bslice, hb, hm]
    rfl
  · by_cases h2 : v < 2 ^ 14
    · have e1 : VLIE.encode v = .ok [64 + v / 2 ^ 8, v % 2 ^ 8] := by
        unfold VLIE.encode
        rw [if_neg h1, if_pos h2]
      have hmin : vlieMinLen v = 2 := by
        unfold vlieMinLen
        rw [if_neg h1, if_pos h2]
      refine ⟨?_, by rw [e1, hmin]; rfl⟩
      unfold decodeEncoded
      rw [e1, hmin]
      show VLIE.decode [64 + v / 2 ^ 8, v % 2 ^ 8] 0 = .ok ⟨v, 2⟩
      have hb : (64 + v / 2 ^ 8) / 64 = 1 := by omega
      have hm : (64 + v / 2 ^ 8) % 64 = v / 2 ^ 8 := by omega
      unfold VLIE.decode
      simp only [List.length_cons, List.length_nil, List.getD_cons_zero, hb, hm]
      norm_num [bslice]
      omega
    · by_cases h3 : v < 2 ^ 30
      · have e1 : VLIE.encode v =
            .ok [128 + v / 2 ^ 24, v / 2 ^ 16 % 2 ^ 8, v / 2 ^ 8 % 2 ^ 8, v % 2 ^ 8] := by
          unfold VLIE.encode
          rw [if_neg h1, if_neg h2, if_pos h3]
        have hmin : vlieMinLen v = 4 := by
          unfold vlieMinLen
          rw [if_neg h1, if_neg h2, if_pos h3]
        refine ⟨?_, by rw [e1, hmin]; rfl⟩
        unfold decodeEncoded
        rw [e1, hmin]
        show VLIE.decode [128 + v / 2 ^ 24, v / 2 ^ 16 % 2 ^ 8, v / 2 ^ 8 % 2 ^ 8, v % 2 ^ 8] 0 =
          .ok ⟨v, 4⟩
        have hb : (128 + v / 2 ^ 24) / 64 = 2 := by omega
        have hm : (128 + v / 2 ^ 24) % 64 = v / 2 ^ 24 := by omega
        unfold VLIE.decode
        simp only [List.length_cons, List.length_nil, List.getD_cons_zero, hb, hm]
        norm_num [bslice]
        omega
      · have e1 : VLIE.encode v =
            .ok [192 + v / 2 ^ 56, v / 2 ^ 48 % 2 ^ 8, v / 2 ^ 40 % 2 ^ 8, v / 2 ^ 32 % 2 ^ 8,
                 v / 2 ^ 24 % 2 ^ 8, v / 2 ^ 16 % 2 ^ 8, v / 2 ^ 8 % 2 ^ 8, v % 2 ^ 8] := by
          unfold VLIE.encode
          rw [if_neg h1, if_neg h2, if_neg h3, if_pos hv]
        have hmin : vlieMinLen v = 8 := by
          unfold vlieMinLen
          rw [if_neg h1, if_neg h2, if_neg h3]
        refine ⟨?_, by rw [e1, hmin]; rfl⟩
        unfold decodeEncoded
        rw [e1, hmin]
        show VLIE.decode
            [192 + v / 2 ^ 56, v / 2 ^ 48 % 2 ^ 8, v / 2 ^ 40 % 2 ^ 8, v / 2 ^ 32 % 2 ^ 8,
             v / 2 ^ 24 % 2 ^ 8, v / 2 ^ 16 % 2 ^ 8, v / 2 ^ 8 % 2 ^ 8, v % 2 ^ 8] 0 =
          .ok ⟨v, 8⟩
        have hb : (192 + v / 2 ^ 56) / 64 = 3 := by omega
        have hm : (192 + v / 2 ^ 56) % 64 = v / 2 ^ 56 := by omega
        unfold VLIE.decode
        simp only [List.length_cons, List.length_nil, List.getD_cons_zero, hb, hm]
        norm_num [bslice]
        omega

/-- C10 witness: the round-trip at `v = 12345` (the canonical 2-byte form). -/
theorem vlie_roundtrip_witness :
    decodeEncoded 12345 = .ok ⟨12345, vlieMinLen 12345⟩ ∧
    (VLIE.encode 12345).map List.length = .ok (vlieMinLen 12345) :=
  vlie_roundtrip 12345 (by norm_num)
